import Mathlib

/-!
Verification of `hartrebounds.py` (clip-compilation pipeline).

Shallow embedding conventions:
* Python strings are `List Char`; Python `None`-or-value results are `Option`.
* The regex character class `\d` is modelled as the ASCII digits and `\s` as the
  ASCII whitespace characters (the descriptions and filenames handled by the
  program are ASCII).
* `re.search` is modelled as a leftmost scan trying an anchored match at every
  position.  For the two patterns used by the program every greedy `\d+` / `\s*`
  is followed by a literal that cannot extend the run, so greedy maximal-munch
  matching without backtracking is exact.
* External effects (Playwright navigation, HTTP download, ffmpeg, `input()`)
  are modelled by explicit environment/script parameters; the effects performed
  (files written, prompts issued, resources acquired/released) are returned as
  data.
-/

/-- ASCII model of the regex class `\d`. -/
def isPyDigit (c : Char) : Bool := '0' ≤ c && c ≤ '9'

/-- ASCII model of the regex class `\s` (space, tab, newline, CR, VT, FF). -/
def isPySpace (c : Char) : Bool :=
  c = ' ' || c = '\t' || c = '\n' || c = '\r' || c = '\x0b' || c = '\x0c'

/-- Value of a decimal digit string, as Python `int()` computes it
(leading zeros allowed). -/
def digitsToNat (s : List Char) : Nat :=
  s.foldl (fun a c => a * 10 + (c.toNat - 48)) 0

/-- Fuelled decimal rendering of a natural number (the digits of `str(n)`).
Fuel-based so that it reduces by `rfl`/`decide`; `natChars` supplies enough
fuel. -/
def natCharsAux : Nat → Nat → List Char
  | 0, _ => []
  | fuel + 1, n =>
    if n < 10 then [Nat.digitChar n]
    else natCharsAux fuel (n / 10) ++ [Nat.digitChar (n % 10)]

/-- The decimal digits of `n`, exactly Python's `str(n)` for `n ≥ 0`
(no leading zeros, `"0"` for zero). -/
def natChars (n : Nat) : List Char := natCharsAux (n + 1) n

/-- Characters of a string literal. -/
def strChars (s : String) : List Char := s.toList

/-- Strip an expected literal token from the front of a string:
`some rest` when `s = tok ++ rest`, otherwise `none`. -/
def stripToken : List Char → List Char → Option (List Char)
  | [], s => some s
  | _ :: _, [] => none
  | t :: ts, c :: cs => if c = t then stripToken ts cs else none

section BasicLemmas

theorem stripToken_append (t s : List Char) : stripToken t (t ++ s) = some s := by
  induction t with
  | nil => rfl
  | cons c cs ih => simp [stripToken, ih]

theorem stripToken_eq_append {t s r : List Char} (h : stripToken t s = some r) :
    s = t ++ r := by
  induction t generalizing s with
  | nil => simpa [stripToken] using h.symm.symm
  | cons c cs ih =>
    cases s with
    | nil => simp [stripToken] at h
    | cons x xs =>
      by_cases hx : x = c
      · subst hx
        simp only [stripToken, if_pos rfl] at h
        simpa using ih h
      · simp [stripToken, hx] at h

theorem stripToken_head_ne {t : Char} {ts : List Char} {c : Char} {cs : List Char}
    (h : c ≠ t) : stripToken (t :: ts) (c :: cs) = none := by
  simp [stripToken, h]

theorem all_takeWhile (p : Char → Bool) (l : List Char) :
    ∀ c ∈ l.takeWhile p, p c = true := fun _ hc => List.mem_takeWhile_imp hc

theorem takeWhile_all_append (p : Char → Bool) (g r : List Char)
    (hg : ∀ c ∈ g, p c = true) (hr : ∀ x, r.head? = some x → p x = false) :
    (g ++ r).takeWhile p = g ∧ (g ++ r).dropWhile p = r := by
  induction g with
  | nil =>
    cases r with
    | nil => simp
    | cons x xs =>
      have hx := hr x rfl
      simp [List.takeWhile, List.dropWhile, hx]
  | cons c cs ih =>
    have hc : p c = true := hg c (by simp)
    have ih' := ih (fun c hc => hg c (by simp [hc]))
    simp [List.takeWhile, List.dropWhile, hc, ih'.1, ih'.2]

end BasicLemmas

section NatCharsLemmas

theorem digitChar_isPyDigit {n : Nat} (h : n < 10) :
    isPyDigit (Nat.digitChar n) = true := by
  interval_cases n <;> decide

theorem digitChar_toNat {n : Nat} (h : n < 10) :
    (Nat.digitChar n).toNat - 48 = n := by
  interval_cases n <;> decide

theorem digitsToNat_append_singleton (l : List Char) (c : Char) :
    digitsToNat (l ++ [c]) = digitsToNat l * 10 + (c.toNat - 48) := by
  simp [digitsToNat, List.foldl_append]

theorem natCharsAux_spec : ∀ fuel n, n < fuel →
    natCharsAux fuel n ≠ [] ∧ (∀ c ∈ natCharsAux fuel n, isPyDigit c = true) ∧
      digitsToNat (natCharsAux fuel n) = n := by
  intro fuel
  induction fuel with
  | zero => intro n h; omega
  | succ fuel ih =>
    intro n h
    by_cases h10 : n < 10
    · refine ⟨by simp [natCharsAux, h10], ?_, ?_⟩
      · intro c hc
        simp only [natCharsAux, if_pos h10, List.mem_singleton] at hc
        exact hc ▸ digitChar_isPyDigit h10
      · simp only [natCharsAux, if_pos h10]
        have : digitsToNat [Nat.digitChar n] = (Nat.digitChar n).toNat - 48 := by
          simp [digitsToNat]
        rw [this, digitChar_toNat h10]
    · have hdiv : n / 10 < fuel := by
        have h1 : n / 10 < n := Nat.div_lt_self (by omega) (by omega)
        omega
      obtain ⟨_, hdig, hval⟩ := ih (n / 10) hdiv
      refine ⟨by simp [natCharsAux, h10], ?_, ?_⟩
      · intro c hc
        simp only [natCharsAux, if_neg h10, List.mem_append, List.mem_singleton] at hc
        rcases hc with hc | hc
        · exact hdig c hc
        · exact hc ▸ digitChar_isPyDigit (Nat.mod_lt n (by omega))
      · simp only [natCharsAux, if_neg h10]
        rw [digitsToNat_append_singleton, hval, digitChar_toNat (Nat.mod_lt n (by omega))]
        omega

theorem natChars_ne_nil (n : Nat) : natChars n ≠ [] :=
  (natCharsAux_spec (n + 1) n (by omega)).1

theorem natChars_all_digit (n : Nat) : ∀ c ∈ natChars n, isPyDigit c = true :=
  (natCharsAux_spec (n + 1) n (by omega)).2.1

theorem digitsToNat_natChars (n : Nat) : digitsToNat (natChars n) = n :=
  (natCharsAux_spec (n + 1) n (by omega)).2.2

theorem isPyDigit_ne_O {c : Char} (h : isPyDigit c = true) : c ≠ 'O' := by
  intro heq; subst heq; exact absurd h (by decide)

theorem isPySpace_not_digit {c : Char} (h : isPySpace c = true) :
    isPyDigit c = false := by
  simp only [isPySpace, Bool.or_eq_true, decide_eq_true_eq] at h
  rcases h with ((((h | h) | h) | h) | h) | h <;> subst h <;> decide

end NatCharsLemmas

/-- The literal `Off` of the filename pattern `Off(\d+)_Def(\d+)_Total(\d+)`. -/
def offTok : List Char := ['O', 'f', 'f']

/-- The literal `_Def` of the filename pattern. -/
def underDefTok : List Char := ['_', 'D', 'e', 'f']

/-- The literal `_Total` of the filename pattern. -/
def underTotalTok : List Char := ['_', 'T', 'o', 't', 'a', 'l']

/-- The literal `Off:` of the description pattern `Off:(\d+)\s*Def:(\d+)`. -/
def offColonTok : List Char := ['O', 'f', 'f', ':']

/-- The literal `Def:` of the description pattern. -/
def defColonTok : List Char := ['D', 'e', 'f', ':']

/-- Anchored match of the regex `Off:(\d+)\s*Def:(\d+)` at the head of `s`
(from `extract_off_def`).  Greedy `\d+` / `\s*` need no backtracking here
because each run is followed by a literal outside its character class. -/
def matchOffDefAt (s : List Char) : Option (Nat × Nat) :=
  match stripToken offColonTok s with
  | none => none
  | some r0 =>
    let g1 := r0.takeWhile isPyDigit
    if g1 = [] then none
    else
      match stripToken defColonTok ((r0.dropWhile isPyDigit).dropWhile isPySpace) with
      | none => none
      | some r2 =>
        let g2 := r2.takeWhile isPyDigit
        if g2 = [] then none else some (digitsToNat g1, digitsToNat g2)

/-- Model of `extract_off_def` from the source: `re.search(r'Off:(\d+)\s*Def:(\d+)', description)`,
returning the two captured integers, or `none` for Python's `(None, None)`.
`re.search` is the leftmost anchored match. -/
def extract_off_def : List Char → Option (Nat × Nat)
  | [] => none
  | c :: cs =>
    match matchOffDefAt (c :: cs) with
    | some r => some r
    | none => extract_off_def cs

/-- Anchored match of the regex `Off(\d+)_Def(\d+)_Total(\d+)` at the head of `s`
(from `replace_clip`).  The three captured groups are kept as digit strings,
because `replace_clip` splices groups 1 and 2 back into a filename as text. -/
def matchODT (s : List Char) : Option (List Char × List Char × List Char) :=
  match stripToken offTok s with
  | none => none
  | some r0 =>
    let g1 := r0.takeWhile isPyDigit
    if g1 = [] then none
    else
      match stripToken underDefTok (r0.dropWhile isPyDigit) with
      | none => none
      | some r1 =>
        let g2 := r1.takeWhile isPyDigit
        if g2 = [] then none
        else
          match stripToken underTotalTok (r1.dropWhile isPyDigit) with
          | none => none
          | some r2 =>
            let g3 := r2.takeWhile isPyDigit
            if g3 = [] then none else some (g1, g2, g3)

/-- Model of `re.search(r'Off(\d+)_Def(\d+)_Total(\d+)', filename)`: leftmost match of
the filename pattern, used by `replace_clip` to recover encoded statistics. -/
def reSearchODT : List Char → Option (List Char × List Char × List Char)
  | [] => none
  | c :: cs =>
    match matchODT (c :: cs) with
    | some r => some r
    | none => reSearchODT cs

/-- Raw clip filename from the main loop:
`f'clip_{idx}_Off{off}_Def{deff}_Total{off+deff}.mp4'`. -/
def clipName (idx o d : Nat) : List Char :=
  strChars "clip_" ++ natChars idx ++ strChars "_Off" ++ natChars o ++
    strChars "_Def" ++ natChars d ++ strChars "_Total" ++ natChars (o + d) ++
    strChars ".mp4"

/-- Annotated clip filename from the main loop:
`f'processed_clip_{idx}_Off{off}_Def{deff}_Total{off+deff}.mp4'`. -/
def processedName (idx o d : Nat) : List Char :=
  strChars "processed_clip_" ++ natChars idx ++ strChars "_Off" ++ natChars o ++
    strChars "_Def" ++ natChars d ++ strChars "_Total" ++ natChars (o + d) ++
    strChars ".mp4"

/-- The mutable state of `main`'s compilation loop: the ordered annotated-file
list, the raw-download list kept for cleanup, and the two running totals. -/
structure LoopState where
  videoFiles : List (List Char)
  tempVideos : List (List Char)
  totalOff : Nat
  totalDef : Nat
  deriving Repr, DecidableEq

/-- Initial state of the loop (`video_files = []`, `temp_videos = []`,
`total_off = total_def = 0`). -/
def initState : LoopState := ⟨[], [], 0, 0⟩

/-- One iteration of `main`'s event loop for the event at enumeration index
`idx` with description `descr`.  Mirrors the source exactly: the event is
skipped when `not off and not deff` holds in Python, i.e. when extraction
returns `(None, None)` or the parsed pair is `(0, 0)`; otherwise the running
totals are overwritten with the event's pair and the raw and annotated
filenames are appended.  Retrieval and overlay are assumed to produce their
files (success-path model). -/
def processEvent (s : LoopState) (ev : Nat × List Char) : LoopState :=
  match extract_off_def ev.2 with
  | none => s
  | some (o, d) =>
    if o = 0 ∧ d = 0 then s
    else
      { videoFiles := s.videoFiles ++ [processedName ev.1 o d],
        tempVideos := s.tempVideos ++ [clipName ev.1 o d],
        totalOff := o,
        totalDef := d }

/-- The event loop of `main` (`for idx, event_info in enumerate(events)`), as a fold
over the enumerated descriptions of the selected events. -/
def runLoop (events : List (List Char)) : LoopState :=
  events.enum.foldl processEvent initState

/-- The pairs of the events that the loop actually processes (those not
skipped by the `not off and not deff` test), in feed order. -/
def processedPairs (events : List (List Char)) : List (Nat × Nat) :=
  events.filterMap fun descr =>
    match extract_off_def descr with
    | none => none
    | some (o, d) => if o = 0 ∧ d = 0 then none else some (o, d)

/-- The pair the loop would process for one description: `none` when the event
is skipped (unparseable description or the Python-falsy pair `(0, 0)`). -/
def processedPair (descr : List Char) : Option (Nat × Nat) :=
  match extract_off_def descr with
  | none => none
  | some (o, d) => if o = 0 ∧ d = 0 then none else some (o, d)

section LoopLemmas

theorem processedPairs_eq_filterMap (events : List (List Char)) :
    processedPairs events = events.filterMap processedPair := by
  unfold processedPairs processedPair
  rfl

theorem processEvent_skip {descr : List Char} (i : Nat) (s : LoopState)
    (h : processedPair descr = none) : processEvent s (i, descr) = s := by
  unfold processedPair at h
  unfold processEvent
  cases hext : extract_off_def descr with
  | none => rfl
  | some p =>
    obtain ⟨o, d⟩ := p
    rw [hext] at h
    simp only at h ⊢
    split at h
    · simp_all
    · simp at h

theorem processEvent_go {descr : List Char} {o d : Nat} (i : Nat) (s : LoopState)
    (h : processedPair descr = some (o, d)) :
    processEvent s (i, descr) =
      { videoFiles := s.videoFiles ++ [processedName i o d],
        tempVideos := s.tempVideos ++ [clipName i o d],
        totalOff := o, totalDef := d } := by
  unfold processedPair at h
  unfold processEvent
  cases hext : extract_off_def descr with
  | none => rw [hext] at h; simp at h
  | some p =>
    obtain ⟨o', d'⟩ := p
    rw [hext] at h
    simp only at h ⊢
    split at h
    · simp at h
    · rename_i hz
      rw [if_neg hz]
      obtain ⟨rfl, rfl⟩ : o' = o ∧ d' = d := by
        constructor <;> [exact congrArg Prod.fst (Option.some.inj h);
          exact congrArg Prod.snd (Option.some.inj h)]
      rfl

theorem getLast?_getD_cons {α : Type} (x a : α) (xs : List α) :
    ((x :: xs).getLast?).getD a = (xs.getLast?).getD x := by
  cases xs with
  | nil => rfl
  | cons y ys => rw [List.getLast?_cons_cons]; rfl

theorem foldl_totals (l : List (Nat × List Char)) :
    ∀ s : LoopState,
      (l.foldl processEvent s).totalOff =
          (((l.map Prod.snd).filterMap processedPair).getLast?.getD
            (s.totalOff, s.totalDef)).1 ∧
        (l.foldl processEvent s).totalDef =
          (((l.map Prod.snd).filterMap processedPair).getLast?.getD
            (s.totalOff, s.totalDef)).2 := by
  induction l with
  | nil => intro s; simp
  | cons hd tl ih =>
    intro s
    obtain ⟨i, descr⟩ := hd
    cases hp : processedPair descr with
    | none =>
      simp only [List.foldl_cons, List.map_cons, List.filterMap_cons, hp]
      rw [processEvent_skip i s hp]
      exact ih s
    | some p =>
      obtain ⟨o, d⟩ := p
      simp only [List.foldl_cons, List.map_cons, List.filterMap_cons, hp]
      rw [processEvent_go i s hp, getLast?_getD_cons]
      exact ih _

theorem enumFrom_map_snd {α : Type} : ∀ (n : Nat) (l : List α),
    (List.enumFrom n l).map Prod.snd = l := by
  intro n l
  induction l generalizing n with
  | nil => rfl
  | cons x xs ih => simp [List.enumFrom, ih]

end LoopLemmas

/-- C3: after the Compiler loop the running totals `(total_offensive,
total_defensive)` equal the statistic pair of the last processed (non-skipped)
event — last-seen-value, not cumulative-sum (totals are `(0, 0)` when no event
was processed).  The two closed conjuncts check the spec's scenarios: with two
matching entries of which one is unparseable the totals are exactly the single
processed event's values, and with pairs `(1,2)` then `(3,4)` the totals are
`(3,4)`, not the sums `(4,6)`. -/
theorem C3_running_totals_last_seen :
    (∀ events : List (List Char),
        (runLoop events).totalOff = ((processedPairs events).getLast?.getD (0, 0)).1 ∧
        (runLoop events).totalDef = ((processedPairs events).getLast?.getD (0, 0)).2) ∧
    ((runLoop [strChars "Hart REBOUND", strChars "Hart REBOUND (Off:2 Def:5)"]).totalOff = 2 ∧
      (runLoop [strChars "Hart REBOUND", strChars "Hart REBOUND (Off:2 Def:5)"]).totalDef = 5) ∧
    ((runLoop [strChars "Hart REBOUND (Off:1 Def:2)",
        strChars "Hart REBOUND (Off:3 Def:4)"]).totalOff = 3 ∧
      (runLoop [strChars "Hart REBOUND (Off:1 Def:2)",
        strChars "Hart REBOUND (Off:3 Def:4)"]).totalDef = 4) := by
  refine ⟨?_, by decide, by decide⟩
  intro events
  have h := foldl_totals events.enum initState
  rw [show (events.enum.map Prod.snd) = events from enumFrom_map_snd 0 events] at h
  rw [processedPairs_eq_filterMap]
  exact h

/-- C1 (code bug): the main loop's guard `if not off and not deff` skips an
event whose description yields the parseable pair `(0, 0)`, because `not 0` is
true in Python — contradicting both the spec (only `(None, None)` extractions
are skipped) and the loop's own diagnostic, which claims the values are
missing.  At the failing input the extraction succeeds with `(0, 0)`, yet the
loop leaves the state untouched: nothing is retrieved, annotated or appended. -/
theorem C1_zero_pair_event_is_skipped :
    extract_off_def (strChars "Hart REBOUND (Off:0 Def:0)") = some (0, 0) ∧
    processEvent initState (0, strChars "Hart REBOUND (Off:0 Def:0)") = initState ∧
    runLoop [strChars "Hart REBOUND (Off:0 Def:0)"] = initState := by
  decide

/-- Raw download target of the replacement workflow:
`f'temp_clip_{clip_number}.mp4'`. -/
def tempClipName (k : Nat) : List Char :=
  strChars "temp_clip_" ++ natChars k ++ strChars ".mp4"

/-- Output filename built by `replace_clip`:
`f'processed_clip_{clip_number}_Off{off}_Def{deff}_Total{int(off) + int(deff)}.mp4'`.
`off` and `deff` are the captured digit strings, spliced back verbatim; only
the total is recomputed from their integer values. -/
def replacementOutName (k : Nat) (o d : List Char) : List Char :=
  strChars "processed_clip_" ++ natChars k ++ strChars "_Off" ++ o ++
    strChars "_Def" ++ d ++ strChars "_Total" ++
    natChars (digitsToNat o + digitsToNat d) ++ strChars ".mp4"

/-- Result of one `replace_clip` call: the updated file list plus the effects
performed (files written by retrieval and by the overlay render). -/
structure ReplaceResult where
  files : List (List Char)
  downloaded : List (List Char)
  rendered : List (List Char)
  deriving Repr, DecidableEq

/-- Model of `replace_clip` from the source.  Reads the current filename at position
`clip_number` (callers always pass an in-range index; out of range Python
would raise, modelled here with `getD`), re-derives the encoded statistics
from it, and on a match downloads a replacement, overlays the preserved
statistics and replaces that position of the list.  When the filename does
not contain the `Off/Def/Total` pattern it returns after a diagnostic with
no download, no render and no list change. -/
def replace_clip (clip_number : Nat) (video_files : List (List Char)) : ReplaceResult :=
  match reSearchODT (video_files.getD clip_number []) with
  | none => ⟨video_files, [], []⟩
  | some (off, deff, _total) =>
    let output_video := replacementOutName clip_number off deff
    ⟨video_files.set clip_number output_video, [tempClipName clip_number], [output_video]⟩

section SearchLemmas

theorem matchODT_none_of_head {c : Char} {cs : List Char} (h : c ≠ 'O') :
    matchODT (c :: cs) = none := by
  have h0 : stripToken offTok (c :: cs) = none := stripToken_head_ne h
  simp [matchODT, h0]

theorem reSearchODT_append_of_no_O {P : List Char} (s : List Char)
    (h : ∀ c ∈ P, c ≠ 'O') : reSearchODT (P ++ s) = reSearchODT s := by
  induction P with
  | nil => rfl
  | cons c P' ih =>
    have hc : c ≠ 'O' := h c (by simp)
    show reSearchODT (c :: (P' ++ s)) = reSearchODT s
    rw [reSearchODT, matchODT_none_of_head hc]
    exact ih fun x hx => h x (by simp [hx])

theorem matchODT_build {o d g rest : List Char}
    (ho : o ≠ []) (hoD : ∀ c ∈ o, isPyDigit c = true)
    (hd : d ≠ []) (hdD : ∀ c ∈ d, isPyDigit c = true)
    (hg : g ≠ []) (hgD : ∀ c ∈ g, isPyDigit c = true)
    (hrest : ∀ x, rest.head? = some x → isPyDigit x = false) :
    matchODT (offTok ++ (o ++ (underDefTok ++ (d ++ (underTotalTok ++ (g ++ rest)))))) =
      some (o, d, g) := by
  have h0 := stripToken_append offTok (o ++ (underDefTok ++ (d ++ (underTotalTok ++ (g ++ rest)))))
  have h1 := takeWhile_all_append isPyDigit o (underDefTok ++ (d ++ (underTotalTok ++ (g ++ rest))))
    hoD (fun x hx => by simp [underDefTok] at hx; subst hx; decide)
  have h2 := stripToken_append underDefTok (d ++ (underTotalTok ++ (g ++ rest)))
  have h3 := takeWhile_all_append isPyDigit d (underTotalTok ++ (g ++ rest))
    hdD (fun x hx => by simp [underTotalTok] at hx; subst hx; decide)
  have h4 := stripToken_append underTotalTok (g ++ rest)
  have h5 := takeWhile_all_append isPyDigit g rest hgD hrest
  simp only [matchODT, h0, h1.1, h1.2, h2, h3.1, h3.2, h4, h5.1,
    if_neg ho, if_neg hd, if_neg hg]

theorem matchODT_sound {s o d g : List Char} (h : matchODT s = some (o, d, g)) :
    o ≠ [] ∧ (∀ c ∈ o, isPyDigit c = true) ∧ d ≠ [] ∧ (∀ c ∈ d, isPyDigit c = true) := by
  unfold matchODT at h
  cases h0 : stripToken offTok s with
  | none => rw [h0] at h; simp at h
  | some r0 =>
    rw [h0] at h
    simp only at h
    split at h
    · simp at h
    · rename_i hg1
      cases h1 : stripToken underDefTok (r0.dropWhile isPyDigit) with
      | none => rw [h1] at h; simp at h
      | some r1 =>
        rw [h1] at h
        simp only at h
        split at h
        · simp at h
        · rename_i hg2
          cases h2 : stripToken underTotalTok (r1.dropWhile isPyDigit) with
          | none => rw [h2] at h; simp at h
          | some r2 =>
            rw [h2] at h
            simp only at h
            split at h
            · simp at h
            · obtain ⟨rfl, rfl, rfl⟩ : r0.takeWhile isPyDigit = o ∧
                  r1.takeWhile isPyDigit = d ∧ r2.takeWhile isPyDigit = g := by
                have := Option.some.inj h
                exact ⟨congrArg (fun p => p.1) this,
                  congrArg (fun p => p.2.1) this, congrArg (fun p => p.2.2) this⟩
              exact ⟨hg1, all_takeWhile _ _, hg2, all_takeWhile _ _⟩

theorem reSearchODT_sound {s o d g : List Char} (h : reSearchODT s = some (o, d, g)) :
    o ≠ [] ∧ (∀ c ∈ o, isPyDigit c = true) ∧ d ≠ [] ∧ (∀ c ∈ d, isPyDigit c = true) := by
  induction s with
  | nil => simp [reSearchODT] at h
  | cons c cs ih =>
    rw [reSearchODT] at h
    cases hm : matchODT (c :: cs) with
    | none => rw [hm] at h; exact ih h
    | some r => rw [hm] at h; exact matchODT_sound (hm.trans (by simpa using h))

theorem strChars_underOff : strChars "_Off" = '_' :: offTok := rfl

theorem strChars_underDef : strChars "_Def" = underDefTok := rfl

theorem strChars_underTotal : strChars "_Total" = underTotalTok := rfl

theorem replacementOutName_decomp (k : Nat) (o d : List Char) :
    replacementOutName k o d =
      (strChars "processed_clip_" ++ natChars k ++ ['_']) ++
        (offTok ++ (o ++ (underDefTok ++ (d ++ (underTotalTok ++
          (natChars (digitsToNat o + digitsToNat d) ++ strChars ".mp4")))))) := by
  unfold replacementOutName
  rw [strChars_underOff, strChars_underDef, strChars_underTotal]
  simp [List.append_assoc]

theorem procClipChars_no_O : ∀ c ∈ strChars "processed_clip_", c ≠ 'O' := by
  decide

theorem reSearchODT_replacementOutName (k : Nat) {o d : List Char}
    (ho : o ≠ []) (hoD : ∀ c ∈ o, isPyDigit c = true)
    (hd : d ≠ []) (hdD : ∀ c ∈ d, isPyDigit c = true) :
    reSearchODT (replacementOutName k o d) =
      some (o, d, natChars (digitsToNat o + digitsToNat d)) := by
  have hP : ∀ c ∈ strChars "processed_clip_" ++ natChars k ++ ['_'], c ≠ 'O' := by
    intro c hc
    rcases List.mem_append.1 hc with hc | hc
    · rcases List.mem_append.1 hc with hc | hc
      · exact procClipChars_no_O c hc
      · exact isPyDigit_ne_O (natChars_all_digit k c hc)
    · rw [List.mem_singleton] at hc
      subst hc; decide
  rw [replacementOutName_decomp, reSearchODT_append_of_no_O _ hP]
  have hm := @matchODT_build o d (natChars (digitsToNat o + digitsToNat d))
    (strChars ".mp4") ho hoD hd hdD (natChars_ne_nil _) (natChars_all_digit _)
    (fun x hx => by simp [strChars] at hx; subst hx; decide)
  show reSearchODT ('O' :: ('f' :: 'f' :: (o ++ (underDefTok ++ (d ++ (underTotalTok ++
    (natChars (digitsToNat o + digitsToNat d) ++ strChars ".mp4"))))))) = _
  rw [reSearchODT]
  have hm2 : matchODT ('O' :: ('f' :: 'f' :: (o ++ (underDefTok ++ (d ++ (underTotalTok ++
      (natChars (digitsToNat o + digitsToNat d) ++ strChars ".mp4"))))))) =
      some (o, d, natChars (digitsToNat o + digitsToNat d)) := hm
  rw [hm2]

end SearchLemmas

/-- C4: a replacement at a valid position `k` changes only position `k` of the
file list; every other position keeps its exact filename, and the new filename
at `k` carries the same `Off` and `Def` digit strings recovered from the
original filename at `k`, with the `Total` field equal to the decimal rendering
of the sum of their values. -/
theorem C4_replacement_frame (files : List (List Char)) (k : Nat) (o d t : List Char)
    (hk : k < files.length)
    (h : reSearchODT (files.getD k []) = some (o, d, t)) :
    (replace_clip k files).files.length = files.length ∧
    (∀ j, j ≠ k → (replace_clip k files).files.getD j [] = files.getD j []) ∧
    reSearchODT ((replace_clip k files).files.getD k []) =
      some (o, d, natChars (digitsToNat o + digitsToNat d)) ∧
    digitsToNat (natChars (digitsToNat o + digitsToNat d)) =
      digitsToNat o + digitsToNat d := by
  obtain ⟨ho, hoD, hd, hdD⟩ := reSearchODT_sound h
  unfold replace_clip
  rw [h]
  simp only
  refine ⟨by simp, ?_, ?_, digitsToNat_natChars _⟩
  · intro j hj
    rw [List.getD_eq_getElem?_getD, List.getD_eq_getElem?_getD,
      List.getElem?_set_ne (Ne.symm hj)]
  · rw [List.getD_eq_getElem?_getD, List.getElem?_set_eq_of_lt _ hk]
    exact reSearchODT_replacementOutName k ho hoD hd hdD

/-- Witness for C4 at a concrete two-element list, replacing position 0. -/
theorem C4_replacement_frame_witness :
    (replace_clip 0 [strChars "processed_clip_0_Off1_Def2_Total3.mp4",
        strChars "other.mp4"]).files.getD 1 [] = strChars "other.mp4" ∧
    reSearchODT ((replace_clip 0 [strChars "processed_clip_0_Off1_Def2_Total3.mp4",
        strChars "other.mp4"]).files.getD 0 []) =
      some (['1'], ['2'], natChars (digitsToNat ['1'] + digitsToNat ['2'])) := by
  have h := C4_replacement_frame
    [strChars "processed_clip_0_Off1_Def2_Total3.mp4", strChars "other.mp4"]
    0 ['1'] ['2'] ['3'] (by decide) (by decide)
  exact ⟨h.2.1 1 (by decide), h.2.2.1⟩

/-- C10: when the filename at the chosen position does not contain the encoded
`Off/Def/Total` pattern, `replace_clip` is a no-op: the file list is returned
unchanged and no retrieval and no overlay render is performed. -/
theorem C10_replace_clip_no_pattern_noop (k : Nat) (files : List (List Char))
    (h : reSearchODT (files.getD k []) = none) :
    (replace_clip k files).files = files ∧
    (replace_clip k files).downloaded = [] ∧
    (replace_clip k files).rendered = [] := by
  unfold replace_clip
  rw [h]
  exact ⟨rfl, rfl, rfl⟩

/-- Witness for C10 on a filename without the pattern. -/
theorem C10_replace_clip_no_pattern_noop_witness :
    (replace_clip 0 [strChars "plain.mp4"]).files = [strChars "plain.mp4"] ∧
    (replace_clip 0 [strChars "plain.mp4"]).downloaded = [] ∧
    (replace_clip 0 [strChars "plain.mp4"]).rendered = [] :=
  C10_replace_clip_no_pattern_noop 0 [strChars "plain.mp4"] (by decide)

/-- Whether `s` starts with the literal label `lbl` immediately followed by a
digit (an occurrence of a labeled integer). -/
def startsLabeledInt (lbl s : List Char) : Bool :=
  match stripToken lbl s with
  | some (c :: _) => isPyDigit c
  | _ => false

/-- Whether the text contains the label `lbl` followed by an integer anywhere. -/
def containsLabeledInt (lbl : List Char) : List Char → Bool
  | [] => false
  | c :: cs => startsLabeledInt lbl (c :: cs) || containsLabeledInt lbl cs

/-- Counterexample to C2: the description `Off:2,Def:3` contains both labeled
integers (each label with its integer appears in the text), yet
`extract_off_def` returns `(None, None)` because the regex
`Off:(\d+)\s*Def:(\d+)` allows only whitespace between the two groups and the
comma breaks the match. -/
theorem C2_counterexample_separated_labels :
    containsLabeledInt offColonTok (strChars "Off:2,Def:3") = true ∧
    containsLabeledInt defColonTok (strChars "Off:2,Def:3") = true ∧
    extract_off_def (strChars "Off:2,Def:3") = none := by
  decide

section ExtractLemmas

theorem head?_dropWhile_false (p : Char → Bool) (l : List Char) :
    ∀ x, (l.dropWhile p).head? = some x → p x = false := by
  induction l with
  | nil => intro x hx; simp [List.dropWhile] at hx
  | cons c cs ih =>
    intro x hx
    by_cases hc : p c = true
    · rw [List.dropWhile_cons, if_pos hc] at hx
      exact ih x hx
    · rw [List.dropWhile_cons, if_neg hc] at hx
      rw [List.head?_cons, Option.some.injEq] at hx
      subst hx
      exact Bool.of_not_eq_true hc

theorem matchOffDefAt_sound {s : List Char} {o d : Nat}
    (h : matchOffDefAt s = some (o, d)) :
    ∃ g1 ws g2 suf,
      s = offColonTok ++ (g1 ++ (ws ++ (defColonTok ++ (g2 ++ suf)))) ∧
      g1 ≠ [] ∧ (∀ c ∈ g1, isPyDigit c = true) ∧ (∀ c ∈ ws, isPySpace c = true) ∧
      g2 ≠ [] ∧ (∀ c ∈ g2, isPyDigit c = true) ∧
      o = digitsToNat g1 ∧ d = digitsToNat g2 ∧
      (∀ x, suf.head? = some x → isPyDigit x = false) := by
  unfold matchOffDefAt at h
  cases h0 : stripToken offColonTok s with
  | none => rw [h0] at h; simp at h
  | some r0 =>
    rw [h0] at h
    simp only at h
    split at h
    · simp at h
    · rename_i hg1
      cases h1 : stripToken defColonTok ((r0.dropWhile isPyDigit).dropWhile isPySpace) with
      | none => rw [h1] at h; simp at h
      | some r2 =>
        rw [h1] at h
        simp only at h
        split at h
        · simp at h
        · rename_i hg2
          obtain ⟨ho, hd⟩ : digitsToNat (r0.takeWhile isPyDigit) = o ∧
              digitsToNat (r2.takeWhile isPyDigit) = d := by
            have := Option.some.inj h
            exact ⟨congrArg Prod.fst this, congrArg Prod.snd this⟩
          refine ⟨r0.takeWhile isPyDigit,
            (r0.dropWhile isPyDigit).takeWhile isPySpace,
            r2.takeWhile isPyDigit, r2.dropWhile isPyDigit,
            ?_, hg1, all_takeWhile _ _, all_takeWhile _ _, hg2, all_takeWhile _ _,
            ho.symm, hd.symm, head?_dropWhile_false isPyDigit r2⟩
          rw [stripToken_eq_append h0]
          congr 1
          conv_lhs => rw [← List.takeWhile_append_dropWhile (p := isPyDigit) (l := r0)]
          congr 1
          conv_lhs =>
            rw [← List.takeWhile_append_dropWhile (p := isPySpace)
              (l := r0.dropWhile isPyDigit)]
          congr 1
          rw [stripToken_eq_append h1]
          congr 1
          exact (List.takeWhile_append_dropWhile (p := isPyDigit) (l := r2)).symm

theorem extract_off_def_sound {s : List Char} {o d : Nat}
    (h : extract_off_def s = some (o, d)) :
    ∃ pre g1 ws g2 suf,
      s = pre ++ (offColonTok ++ (g1 ++ (ws ++ (defColonTok ++ (g2 ++ suf))))) ∧
      g1 ≠ [] ∧ (∀ c ∈ g1, isPyDigit c = true) ∧ (∀ c ∈ ws, isPySpace c = true) ∧
      g2 ≠ [] ∧ (∀ c ∈ g2, isPyDigit c = true) ∧
      o = digitsToNat g1 ∧ d = digitsToNat g2 ∧
      (∀ x, suf.head? = some x → isPyDigit x = false) ∧
      (∀ i, i < pre.length → matchOffDefAt (s.drop i) = none) := by
  induction s with
  | nil => simp [extract_off_def] at h
  | cons c cs ih =>
    rw [extract_off_def] at h
    cases hm : matchOffDefAt (c :: cs) with
    | some r =>
      rw [hm] at h
      obtain ⟨g1, ws, g2, suf, heq, h1, h2, h3, h4, h5, h6, h7, h8⟩ :=
        matchOffDefAt_sound (hm.trans (by simpa using h))
      exact ⟨[], g1, ws, g2, suf, by simpa using heq, h1, h2, h3, h4, h5, h6, h7, h8,
        fun i hi => absurd hi (by simp)⟩
    | none =>
      rw [hm] at h
      obtain ⟨pre, g1, ws, g2, suf, heq, h1, h2, h3, h4, h5, h6, h7, h8, h9⟩ := ih h
      refine ⟨c :: pre, g1, ws, g2, suf, by simp [heq], h1, h2, h3, h4, h5, h6, h7, h8, ?_⟩
      intro i hi
      cases i with
      | zero => simpa using hm
      | succ j =>
        have hj : j < pre.length := by simpa using hi
        simpa [List.drop_succ_cons] using h9 j hj

theorem takeWhile_ne_nil_of_head {p : Char → Bool} {g suf : List Char}
    (hg : g ≠ []) (hd : ∀ c ∈ g, p c = true) : (g ++ suf).takeWhile p ≠ [] := by
  cases g with
  | nil => exact absurd rfl hg
  | cons y ys =>
    have : p y = true := hd y (by simp)
    simp [List.takeWhile, this]

theorem matchOffDefAt_complete {g1 ws g2 suf : List Char}
    (hg1 : g1 ≠ []) (hg1D : ∀ c ∈ g1, isPyDigit c = true)
    (hws : ∀ c ∈ ws, isPySpace c = true)
    (hg2 : g2 ≠ []) (hg2D : ∀ c ∈ g2, isPyDigit c = true) :
    ∃ p, matchOffDefAt
      (offColonTok ++ (g1 ++ (ws ++ (defColonTok ++ (g2 ++ suf))))) = some p := by
  have h0 := stripToken_append offColonTok (g1 ++ (ws ++ (defColonTok ++ (g2 ++ suf))))
  have hr1 : ∀ x, (ws ++ (defColonTok ++ (g2 ++ suf))).head? = some x →
      isPyDigit x = false := by
    intro x hx
    cases ws with
    | nil =>
      simp only [List.nil_append, defColonTok, List.cons_append, List.head?_cons,
        Option.some.injEq] at hx
      subst hx; decide
    | cons w wsr =>
      simp only [List.cons_append, List.head?_cons, Option.some.injEq] at hx
      subst hx
      exact isPySpace_not_digit (hws w (by simp))
  have h1 := takeWhile_all_append isPyDigit g1 (ws ++ (defColonTok ++ (g2 ++ suf)))
    hg1D hr1
  have hr2 : ∀ x, (defColonTok ++ (g2 ++ suf)).head? = some x →
      isPySpace x = false := by
    intro x hx
    simp only [defColonTok, List.cons_append, List.head?_cons, Option.some.injEq] at hx
    subst hx; decide
  have h2 := takeWhile_all_append isPySpace ws (defColonTok ++ (g2 ++ suf)) hws hr2
  have h3 := stripToken_append defColonTok (g2 ++ suf)
  have h4 := @takeWhile_ne_nil_of_head isPyDigit g2 suf hg2 hg2D
  refine ⟨(digitsToNat g1, digitsToNat ((g2 ++ suf).takeWhile isPyDigit)), ?_⟩
  simp only [matchOffDefAt, h0, h1.1, h1.2, h2.2, h3, if_neg hg1, if_neg h4]

theorem extract_off_def_complete (pre g1 ws g2 suf : List Char)
    (hg1 : g1 ≠ []) (hg1D : ∀ c ∈ g1, isPyDigit c = true)
    (hws : ∀ c ∈ ws, isPySpace c = true)
    (hg2 : g2 ≠ []) (hg2D : ∀ c ∈ g2, isPyDigit c = true) :
    ∃ p, extract_off_def
      (pre ++ (offColonTok ++ (g1 ++ (ws ++ (defColonTok ++ (g2 ++ suf)))))) = some p := by
  induction pre with
  | nil =>
    obtain ⟨p, hp⟩ := @matchOffDefAt_complete g1 ws g2 suf hg1 hg1D hws hg2 hg2D
    refine ⟨p, ?_⟩
    rw [List.nil_append]
    show extract_off_def ('O' :: ('f' :: 'f' :: ':' ::
      (g1 ++ (ws ++ (defColonTok ++ (g2 ++ suf)))))) = some p
    rw [extract_off_def]
    have hp2 : matchOffDefAt ('O' :: ('f' :: 'f' :: ':' ::
        (g1 ++ (ws ++ (defColonTok ++ (g2 ++ suf)))))) = some p := hp
    rw [hp2]
  | cons c pre' ih =>
    obtain ⟨p, hp⟩ := ih
    rw [List.cons_append]
    rw [extract_off_def]
    cases hm : matchOffDefAt (c :: (pre' ++
        (offColonTok ++ (g1 ++ (ws ++ (defColonTok ++ (g2 ++ suf))))))) with
    | some r => exact ⟨r, rfl⟩
    | none => exact ⟨p, hp⟩

end ExtractLemmas

/-- C2 (amended): `extract_off_def` returns a pair exactly when the
description contains an occurrence of `Off:` followed by digits, optional
whitespace, and `Def:` followed by digits, contiguously; the returned values
are the two captured digit groups of the leftmost such occurrence; a
description where the two labeled integers are separated by any other text
(or appear in reverse order) yields `(None, None)`; a partial pair is never
returned (the result type is a single optional pair).  Soundness: a returned
pair decomposes the description around a contiguous occurrence whose defensive
group is maximal (the suffix does not start with a digit) and which is
leftmost — no contiguous occurrence decomposes the description with a strictly
shorter prefix.  Completeness: any description containing a contiguous
occurrence yields some pair. -/
theorem C2_extract_off_def_amended (s : List Char) :
    (∀ o d, extract_off_def s = some (o, d) →
      ∃ pre g1 ws g2 suf,
        s = pre ++ (offColonTok ++ (g1 ++ (ws ++ (defColonTok ++ (g2 ++ suf))))) ∧
        g1 ≠ [] ∧ (∀ c ∈ g1, isPyDigit c = true) ∧ (∀ c ∈ ws, isPySpace c = true) ∧
        g2 ≠ [] ∧ (∀ c ∈ g2, isPyDigit c = true) ∧
        o = digitsToNat g1 ∧ d = digitsToNat g2 ∧
        (∀ x, suf.head? = some x → isPyDigit x = false) ∧
        (∀ pre2 g1' ws' g2' suf',
          s = pre2 ++ (offColonTok ++ (g1' ++ (ws' ++ (defColonTok ++ (g2' ++ suf'))))) →
          g1' ≠ [] → (∀ c ∈ g1', isPyDigit c = true) → (∀ c ∈ ws', isPySpace c = true) →
          g2' ≠ [] → (∀ c ∈ g2', isPyDigit c = true) →
          pre.length ≤ pre2.length)) ∧
    (∀ pre g1 ws g2 suf,
      s = pre ++ (offColonTok ++ (g1 ++ (ws ++ (defColonTok ++ (g2 ++ suf))))) →
      g1 ≠ [] → (∀ c ∈ g1, isPyDigit c = true) → (∀ c ∈ ws, isPySpace c = true) →
      g2 ≠ [] → (∀ c ∈ g2, isPyDigit c = true) →
      ∃ p, extract_off_def s = some p) := by
  constructor
  · intro o d h
    obtain ⟨pre, g1, ws, g2, suf, heq, h1, h2, h3, h4, h5, h6, h7, h8, h9⟩ :=
      extract_off_def_sound h
    refine ⟨pre, g1, ws, g2, suf, heq, h1, h2, h3, h4, h5, h6, h7, h8, ?_⟩
    intro pre2 g1' ws' g2' suf' heq' hg1' hg1D' hws' hg2' hg2D'
    by_contra hlt
    rw [Nat.not_le] at hlt
    have hnone := h9 pre2.length hlt
    rw [heq', List.drop_left] at hnone
    obtain ⟨p, hp⟩ := @matchOffDefAt_complete g1' ws' g2' suf' hg1' hg1D' hws' hg2' hg2D'
    rw [hp] at hnone
    exact Option.noConfusion hnone
  · intro pre g1 ws g2 suf heq hg1 hg1D hws hg2 hg2D
    rw [heq]
    exact extract_off_def_complete pre g1 ws g2 suf hg1 hg1D hws hg2 hg2D

/-- Witness for the amended C2 on the description `x Off:12 Def:3 y`. -/
theorem C2_extract_off_def_amended_witness :
    ∃ p, extract_off_def (strChars "x Off:12 Def:3 y") = some p :=
  (C2_extract_off_def_amended (strChars "x Off:12 Def:3 y")).2
    (strChars "x ") ['1', '2'] [' '] ['3'] (strChars " y")
    (by decide) (by decide) (by decide) (by decide) (by decide) (by decide)

/-- Python `str.strip()` on ASCII input: whitespace removed from both ends. -/
def pyStrip (s : List Char) : List Char :=
  ((s.dropWhile isPySpace).reverse.dropWhile isPySpace).reverse

/-- Python `str.lower()` on ASCII input. -/
def pyLower (s : List Char) : List Char := s.map Char.toLower

/-- The literal answer `yes` compared against by `prompt_for_replacements`. -/
def yesChars : List Char := strChars "yes"

/-- Python `int()` on an already-stripped string: an optional sign followed by
one or more digits; anything else raises `ValueError`, modelled as `none`.
(Underscore digit grouping of Python 3.6+ is not modelled; no input in the
claims uses it.) -/
def pyInt (s : List Char) : Option Int :=
  match s with
  | '-' :: rest =>
    if rest ≠ [] ∧ rest.all isPyDigit then some (-(digitsToNat rest : Int)) else none
  | '+' :: rest =>
    if rest ≠ [] ∧ rest.all isPyDigit then some ((digitsToNat rest : Int)) else none
  | _ =>
    if s ≠ [] ∧ s.all isPyDigit then some ((digitsToNat s : Int)) else none

/-- The interactive prompts issued by `prompt_for_replacements`, in order. -/
inductive Prompt where
  | askReplace
  | askClipNumber
  | askUrl
  | askAnother
  deriving Repr, DecidableEq

/-- Result of a completed replacement session: final file list, the
`replacements_made` flag, the prompts issued, and the files created by
`replace_clip` calls during the session. -/
structure SessionResult where
  files : List (List Char)
  made : Bool
  prompts : List Prompt
  created : List (List Char)
  deriving Repr, DecidableEq

/-- Prepend prompts issued before a sub-run. -/
def addPrompts (ps : List Prompt) (r : SessionResult) : SessionResult :=
  { r with prompts := ps ++ r.prompts }

/-- Prepend files created before a sub-run. -/
def addCreated (cs : List (List Char)) (r : SessionResult) : SessionResult :=
  { r with created := cs ++ r.created }

/-- The `while True` loop of `prompt_for_replacements`, driven by the scripted
answers of the interactive `input()` calls.  `atAnother = false` means the next
answer is for the loop-top question `Do you want to replace any clips?`;
`atAnother = true` means it is for `Do you want to replace another clip?`
(reached after an accepted replacement, and — as in the source — after a
`ValueError`, because the `except` clause falls through to that question).
An out-of-range clip number executes `continue`, returning to the loop-top
question.  The result is `none` when the script is exhausted at a prompt
(Python would raise `EOFError`).  Fuel is structural; `prompt_for_replacements`
supplies `script.length + 1`, which the recursion (consuming at least one
answer per step) never exhausts. -/
def sessionRun : Nat → Bool → List (List Char) → Bool → List (List Char) →
    Option SessionResult
  | 0, _, _, _, _ => none
  | _ + 1, true, _, _, [] => none
  | fuel + 1, true, files, made, a :: r =>
    if pyLower (pyStrip a) = yesChars then
      (sessionRun fuel false files made r).map (addPrompts [Prompt.askAnother])
    else some ⟨files, made, [Prompt.askAnother], []⟩
  | _ + 1, false, _, _, [] => none
  | fuel + 1, false, files, made, ans :: rest =>
    if pyLower (pyStrip ans) = yesChars then
      match rest with
      | [] => none
      | numStr :: rest2 =>
        match pyInt (pyStrip numStr) with
        | none =>
          (sessionRun fuel true files made rest2).map
            (addPrompts [Prompt.askReplace, Prompt.askClipNumber])
        | some n =>
          if n - 1 < 0 ∨ (files.length : Int) ≤ n - 1 then
            (sessionRun fuel false files made rest2).map
              (addPrompts [Prompt.askReplace, Prompt.askClipNumber])
          else
            match rest2 with
            | [] => none
            | _url :: rest3 =>
              let rc := replace_clip (n - 1).toNat files
              (sessionRun fuel true rc.files true rest3).map fun r =>
                addPrompts [Prompt.askReplace, Prompt.askClipNumber, Prompt.askUrl]
                  (addCreated (rc.downloaded ++ rc.rendered) r)
    else some ⟨files, made, [Prompt.askReplace], []⟩

/-- Model of `prompt_for_replacements` from the source, on a scripted sequence of
interactive answers. -/
def prompt_for_replacements (video_files : List (List Char))
    (script : List (List Char)) : Option SessionResult :=
  sessionRun (script.length + 1) false video_files false script

section SessionLemmas

theorem sessionRun_made_iff : ∀ fuel m files made script r,
    sessionRun fuel m files made script = some r →
    (r.made = true ↔ (made = true ∨ Prompt.askUrl ∈ r.prompts)) := by
  intro fuel
  induction fuel with
  | zero => intro m files made script r h; simp [sessionRun] at h
  | succ fuel ih =>
    intro m files made script r h
    cases m with
    | true =>
      cases script with
      | nil => simp [sessionRun] at h
      | cons a rest =>
        simp only [sessionRun] at h
        split at h
        · obtain ⟨r0, hr0, hmap⟩ := Option.map_eq_some'.1 h
          subst hmap
          have := ih false files made rest r0 hr0
          simpa [addPrompts] using this
        · obtain rfl : (⟨files, made, [Prompt.askAnother], []⟩ : SessionResult) = r :=
            Option.some.inj h
          simp
    | false =>
      cases script with
      | nil => simp [sessionRun] at h
      | cons ans rest =>
        simp only [sessionRun] at h
        split at h
        · cases rest with
          | nil => simp at h
          | cons numStr rest2 =>
            simp only at h
            cases hn : pyInt (pyStrip numStr) with
            | none =>
              rw [hn] at h
              obtain ⟨r0, hr0, hmap⟩ := Option.map_eq_some'.1 h
              subst hmap
              have := ih true files made rest2 r0 hr0
              simpa [addPrompts] using this
            | some n =>
              rw [hn] at h
              simp only at h
              split at h
              · obtain ⟨r0, hr0, hmap⟩ := Option.map_eq_some'.1 h
                subst hmap
                have := ih false files made rest2 r0 hr0
                simpa [addPrompts] using this
              · cases rest2 with
                | nil => simp at h
                | cons url rest3 =>
                  simp only at h
                  obtain ⟨r0, hr0, hmap⟩ := Option.map_eq_some'.1 h
                  subst hmap
                  have hr0made : r0.made = true := (ih true
                    (replace_clip (n - 1).toNat files).files true rest3 r0 hr0).2 (Or.inl rfl)
                  simp [addPrompts, addCreated, hr0made]
        · obtain rfl : (⟨files, made, [Prompt.askReplace], []⟩ : SessionResult) = r :=
            Option.some.inj h
          simp

end SessionLemmas

/-- C5 (amended): in `prompt_for_replacements`, an out-of-range numeric
position executes `continue` — no state change, no files created, and the
session resumes at the loop-top `replace any clips?` question without asking
the `replace another?` question.  Non-numeric input, however, is caught by the
`except ValueError` clause which falls through to the `replace another?`
question: no state change and no files are created, but a continue cycle IS
consumed and a non-affirmative answer there ends the session.  The session
returns `true` iff at least one position/URL pair was accepted (the URL prompt
was issued and `replace_clip` invoked) — even if that invocation changed
nothing. -/
theorem C5_session_amended :
    (∀ (fuel : Nat) (ans numStr : List Char) (rest files : List (List Char))
        (made : Bool) (n : Int),
      pyLower (pyStrip ans) = yesChars →
      pyInt (pyStrip numStr) = some n →
      (n - 1 < 0 ∨ (files.length : Int) ≤ n - 1) →
      sessionRun (fuel + 1) false files made (ans :: numStr :: rest) =
        (sessionRun fuel false files made rest).map
          (addPrompts [Prompt.askReplace, Prompt.askClipNumber])) ∧
    (∀ (fuel : Nat) (ans numStr : List Char) (rest files : List (List Char))
        (made : Bool),
      pyLower (pyStrip ans) = yesChars →
      pyInt (pyStrip numStr) = none →
      sessionRun (fuel + 1) false files made (ans :: numStr :: rest) =
        (sessionRun fuel true files made rest).map
          (addPrompts [Prompt.askReplace, Prompt.askClipNumber])) ∧
    (∀ files script r, prompt_for_replacements files script = some r →
      (r.made = true ↔ Prompt.askUrl ∈ r.prompts)) := by
  refine ⟨?_, ?_, ?_⟩
  · intro fuel ans numStr rest files made n hyes hn hrange
    rw [sessionRun, if_pos hyes]
    simp only [hn]
    rw [if_pos hrange]
  · intro fuel ans numStr rest files made hyes hn
    rw [sessionRun, if_pos hyes]
    simp only [hn]
  · intro files script r h
    have := sessionRun_made_iff (script.length + 1) false files false script r h
    simpa using this

/-- Counterexample to C5: with file list `[plain.mp4]`, the script
`yes, abc, no` (non-numeric position) ends the session via the
`replace another?` question — the third prompt issued is `askAnother`, not a
re-prompt of the replacement question, so the invalid input did consume a
continue cycle; and the script `yes, 1, u, no` returns `made = true` although
the file list is unchanged and no file was created (no replacement occurred,
because `plain.mp4` has no encoded statistics). -/
theorem C5_counterexample_invalid_input :
    prompt_for_replacements [strChars "plain.mp4"]
        [strChars "yes", strChars "abc", strChars "no"] =
      some ⟨[strChars "plain.mp4"], false,
        [Prompt.askReplace, Prompt.askClipNumber, Prompt.askAnother], []⟩ ∧
    prompt_for_replacements [strChars "plain.mp4"]
        [strChars "yes", strChars "1", strChars "u", strChars "no"] =
      some ⟨[strChars "plain.mp4"], true,
        [Prompt.askReplace, Prompt.askClipNumber, Prompt.askUrl, Prompt.askAnother],
        []⟩ := by
  constructor <;> decide

/-- Witness for the amended C5: instantiates the out-of-range equation at
position 9 of a one-element list and the made-iff property on a script that
declines immediately. -/
theorem C5_session_amended_witness :
    (sessionRun 3 false [strChars "plain.mp4"] false
        [strChars "yes", strChars "9", strChars "no"] =
      (sessionRun 2 false [strChars "plain.mp4"] false [strChars "no"]).map
        (addPrompts [Prompt.askReplace, Prompt.askClipNumber])) ∧
    ((false = true) ↔ Prompt.askUrl ∈ [Prompt.askReplace]) := by
  constructor
  · exact C5_session_amended.1 2 (strChars "yes") (strChars "9") [strChars "no"]
      [strChars "plain.mp4"] false 9 (by decide) (by decide) (by decide)
  · exact C5_session_amended.2.2 [strChars "plain.mp4"] [strChars "no"]
      ⟨[strChars "plain.mp4"], false, [Prompt.askReplace], []⟩ (by decide)

/-- Outcome of one navigation attempt in `download_video_from_page`:
`page.goto` raised; goto succeeded but `wait_for_selector` timed out; or the
video element appeared. -/
inductive NavResult where
  | gotoFail
  | elemTimeout
  | elemOk
  deriving Repr, DecidableEq

/-- How the retry loop `for attempt in range(5)` exits. -/
inductive NavOut where
  | proceed
  | elemFail
  | exhausted
  deriving Repr, DecidableEq

/-- The retry loop of `download_video_from_page`: attempt `i` with
`remaining` attempts left (5 at the start).  A `goto` failure retries while
attempts remain and otherwise exhausts; an element timeout fails immediately
without consuming the remaining retries; element appearance breaks out. -/
def navLoop (att : Nat → NavResult) : Nat → Nat → NavOut
  | _, 0 => .exhausted
  | i, remaining + 1 =>
    match att i with
    | .elemOk => .proceed
    | .elemTimeout => .elemFail
    | .gotoFail => if remaining = 0 then .exhausted else navLoop att (i + 1) remaining

/-- External environment of one `download_video_from_page` call: the outcome
of each navigation attempt, the `src` attribute of the video element, and the
transport response (status code and streamed chunks). -/
structure RetrieveEnv where
  attempt : Nat → NavResult
  videoSrc : Option (List Char)
  status : Nat
  chunks : List (List Nat)

/-- Observable outcome of one `download_video_from_page` call: whether the
call raised, the destination file's bytes (`none` = no file was created),
which messages were reported, and the resource events (acquisitions of the
browser/session, explicit `browser.close()` calls, and whether the
`with sync_playwright()` context was exited, which tears the session down). -/
structure RetrieveOutcome where
  raised : Bool
  fileContent : Option (List Nat)
  downloadReported : Bool
  statusFailReported : Bool
  acquisitions : Nat
  browserCloses : Nat
  sessionReleased : Bool
  deriving Repr, DecidableEq

/-- Model of `download_video_from_page` from the source.  The whole body runs inside
`with sync_playwright() as p:`; Python guarantees the context manager's
`__exit__` on every exit path, normal or exceptional, so `sessionReleased`
is true on all paths (stopping Playwright tears down the browsers it
launched).  Explicit `browser.close()` calls are counted separately:
note the `raise Exception('Video source not found!')` path has none.
The destination file is created only in the `status_code == 200` branch;
a non-success status prints a failure message, creates no file and does
not raise. -/
def download_video_from_page (env : RetrieveEnv) : RetrieveOutcome :=
  match navLoop env.attempt 0 5 with
  | .elemFail =>
    ⟨false, none, false, false, 1, 1, true⟩
  | .exhausted =>
    ⟨false, none, false, false, 1, 1, true⟩
  | .proceed =>
    match env.videoSrc with
    | none => ⟨true, none, false, false, 1, 0, true⟩
    | some _ =>
      if env.status = 200 then
        ⟨false, some env.chunks.flatten, true, false, 1, 1, true⟩
      else
        ⟨false, none, false, true, 1, 1, true⟩

/-- C7: in every `download_video_from_page` call the browser/session resource
is acquired exactly once, and the Playwright session scope is exited —
releasing the resource — on every exit path: success, element-timeout
failure, navigation exhaustion, the non-success-status path, and the raising
missing-video-source path alike. -/
theorem C7_resource_discipline (env : RetrieveEnv) :
    (download_video_from_page env).acquisitions = 1 ∧
    (download_video_from_page env).sessionReleased = true := by
  unfold download_video_from_page
  cases navLoop env.attempt 0 5 with
  | elemFail => exact ⟨rfl, rfl⟩
  | exhausted => exact ⟨rfl, rfl⟩
  | proceed =>
    cases env.videoSrc with
    | none => exact ⟨rfl, rfl⟩
    | some u =>
      by_cases h : env.status = 200 <;> simp [h]

/-- Counterexample to C6: a 200 response with an empty body.  The call reports
`Download completed` (success), yet the destination file, though it exists,
is empty — the success report does not guarantee a non-empty file. -/
theorem C6_counterexample_empty_download :
    (download_video_from_page
        ⟨fun _ => NavResult.elemOk, some (strChars "u"), 200, []⟩).downloadReported =
      true ∧
    (download_video_from_page
        ⟨fun _ => NavResult.elemOk, some (strChars "u"), 200, []⟩).fileContent =
      some [] := by
  exact ⟨rfl, rfl⟩

/-- C6 (amended): if the call reports a completed download the destination
file exists and holds exactly the streamed bytes (which may be empty when the
transport sends an empty 200 body); on every path that does not report a
completed download — navigation exhausted, media element absent, non-success
transport status, or the raising missing-source path — no file is created;
and a non-success transport status on the download path completes the call
without raising, reports the failure, and produces no file. -/
theorem C6_retrieve_file_guarantees (env : RetrieveEnv) :
    ((download_video_from_page env).downloadReported = true →
      (download_video_from_page env).fileContent = some env.chunks.flatten) ∧
    ((download_video_from_page env).downloadReported = false →
      (download_video_from_page env).fileContent = none) ∧
    (navLoop env.attempt 0 5 = NavOut.proceed → env.videoSrc.isSome →
      env.status ≠ 200 →
      (download_video_from_page env).raised = false ∧
      (download_video_from_page env).fileContent = none ∧
      (download_video_from_page env).statusFailReported = true) := by
  unfold download_video_from_page
  cases hnav : navLoop env.attempt 0 5 with
  | elemFail => exact ⟨by simp, by simp, by simp⟩
  | exhausted => exact ⟨by simp, by simp, by simp⟩
  | proceed =>
    cases env.videoSrc with
    | none => exact ⟨by simp, by simp, by simp⟩
    | some u =>
      by_cases h : env.status = 200 <;> simp [h]

/-- Witness for the amended C6: a 404 response after successful navigation
completes without raising, reports the status failure and creates no file. -/
theorem C6_retrieve_file_guarantees_witness :
    (download_video_from_page
        ⟨fun _ => NavResult.elemOk, some (strChars "u"), 404, [[1]]⟩).raised = false ∧
    (download_video_from_page
        ⟨fun _ => NavResult.elemOk, some (strChars "u"), 404, [[1]]⟩).fileContent =
      none ∧
    (download_video_from_page
        ⟨fun _ => NavResult.elemOk, some (strChars "u"), 404,
          [[1]]⟩).statusFailReported = true :=
  (C6_retrieve_file_guarantees
    ⟨fun _ => NavResult.elemOk, some (strChars "u"), 404, [[1]]⟩).2.2
    rfl rfl (by decide)

/-- How the external `ffmpeg` concat invocation ends: success, a nonzero exit
(`CalledProcessError`, caught), or some other exception (uncaught, but the
`finally` clause still runs). -/
inductive ToolResult where
  | ok
  | nonzeroExit
  | raisedOther
  deriving Repr, DecidableEq

/-- The apostrophe character used to quote manifest paths. -/
def quoteChar : Char := Char.ofNat 39

/-- One line of the `videos.txt` manifest:
`f"file '{os.path.abspath(video)}'\n"` (without the terminating newline;
`absPath` models `os.path.abspath`). -/
def manifestLine (absPath : List Char → List Char) (video : List Char) : List Char :=
  strChars "file " ++ [quoteChar] ++ absPath video ++ [quoteChar]

/-- Observable outcome of one `concatenate_videos` call. -/
structure ConcatResult where
  manifestLines : List (List Char)
  manifestRemoved : Bool
  deletedInputs : List (List Char)
  raised : Bool
  deriving Repr, DecidableEq

/-- Model of `concatenate_videos` from the source: writes one manifest line per input
file, in list order, to the temporary `videos.txt`; invokes the external tool;
and removes the manifest in a `finally` clause, which Python runs on every
exit path — tool success, caught `CalledProcessError`, and any other
exception alike.  No input file is ever deleted. -/
def concatenate_videos (absPath : List Char → List Char) (tool : ToolResult)
    (video_files : List (List Char)) : ConcatResult :=
  { manifestLines := video_files.foldl (fun acc v => acc ++ [manifestLine absPath v]) [],
    manifestRemoved := true,
    deletedInputs := [],
    raised := tool = ToolResult.raisedOther }

section ConcatLemmas

theorem foldl_append_singleton {α β : Type} (g : α → β) :
    ∀ (l : List α) (acc : List β),
      l.foldl (fun acc v => acc ++ [g v]) acc = acc ++ l.map g := by
  intro l
  induction l with
  | nil => intro acc; simp
  | cons x xs ih => intro acc; simp [ih]

end ConcatLemmas

/-- C8: the manifest written by `concatenate_videos` contains exactly one
absolute-path line per input file, in exactly the input order; the temporary
manifest is removed on every exit path regardless of the tool's result; and
no input file is deleted on failure (or on any path). -/
theorem C8_concatenate_manifest (absPath : List Char → List Char)
    (tool : ToolResult) (video_files : List (List Char)) :
    (concatenate_videos absPath tool video_files).manifestLines =
      video_files.map (manifestLine absPath) ∧
    (concatenate_videos absPath tool video_files).manifestLines.length =
      video_files.length ∧
    (concatenate_videos absPath tool video_files).manifestRemoved = true ∧
    (concatenate_videos absPath tool video_files).deletedInputs = [] := by
  have h := foldl_append_singleton (manifestLine absPath) video_files []
  refine ⟨by simpa [concatenate_videos] using h, ?_, rfl, rfl⟩
  simp [concatenate_videos, h]

/-- Outcome of a completed run of `main` from the start of the event loop to
the cleanup: the raw downloads of the main loop, the final file list after the
replacement session, the files removed by the cleanup loop
(`all_clips = temp_videos + video_files`), the files created during the run,
and whether replacements were made.  `none` models the runs that never reach
the cleanup (no event processed, or the interactive script exhausted). -/
structure RunResult where
  tempVideos : List (List Char)
  finalFiles : List (List Char)
  deleted : List (List Char)
  created : List (List Char)
  made : Bool
  deriving Repr, DecidableEq

/-- The tail of `main` from the event loop onward: run the loop, return early
when no video was processed, run the replacement session on the scripted
answers, then delete `temp_videos + video_files`.  Created files are the main
loop's raw and annotated clips plus whatever `replace_clip` calls created. -/
def mainRun (events : List (List Char)) (script : List (List Char)) :
    Option RunResult :=
  if (runLoop events).videoFiles = [] then none
  else
    match prompt_for_replacements (runLoop events).videoFiles script with
    | none => none
    | some sr =>
      some { tempVideos := (runLoop events).tempVideos,
             finalFiles := sr.files,
             deleted := (runLoop events).tempVideos ++ sr.files,
             created := (runLoop events).tempVideos ++ (runLoop events).videoFiles ++
               sr.created,
             made := sr.made }

section HeadLemmas

theorem clipName_head (i o d : Nat) : (clipName i o d).head? = some 'c' := rfl

theorem processedName_head (i o d : Nat) : (processedName i o d).head? = some 'p' := rfl

theorem replacementOutName_head (k : Nat) (o d : List Char) :
    (replacementOutName k o d).head? = some 'p' := rfl

theorem tempClipName_head (k : Nat) : (tempClipName k).head? = some 't' := rfl

theorem foldl_tempVideos_head (l : List (Nat × List Char)) :
    ∀ s : LoopState, (∀ f ∈ s.tempVideos, f.head? = some 'c') →
      ∀ f ∈ (l.foldl processEvent s).tempVideos, f.head? = some 'c' := by
  induction l with
  | nil => intro s hs; exact hs
  | cons hd tl ih =>
    intro s hs
    apply ih
    unfold processEvent
    cases hext : extract_off_def hd.2 with
    | none => exact hs
    | some p =>
      obtain ⟨o, d⟩ := p
      show ∀ f ∈ (if o = 0 ∧ d = 0 then s
          else ({ videoFiles := s.videoFiles ++ [processedName hd.1 o d],
                  tempVideos := s.tempVideos ++ [clipName hd.1 o d],
                  totalOff := o, totalDef := d } : LoopState)).tempVideos,
        f.head? = some 'c'
      by_cases hz : o = 0 ∧ d = 0
      · rw [if_pos hz]; exact hs
      · rw [if_neg hz]
        intro f hf
        replace hf : f ∈ s.tempVideos ++ [clipName hd.1 o d] := hf
        rcases List.mem_append.1 hf with hf | hf
        · exact hs f hf
        · rw [List.mem_singleton] at hf; subst hf; exact clipName_head hd.1 o d

theorem foldl_videoFiles_head (l : List (Nat × List Char)) :
    ∀ s : LoopState, (∀ f ∈ s.videoFiles, f.head? = some 'p') →
      ∀ f ∈ (l.foldl processEvent s).videoFiles, f.head? = some 'p' := by
  induction l with
  | nil => intro s hs; exact hs
  | cons hd tl ih =>
    intro s hs
    apply ih
    unfold processEvent
    cases hext : extract_off_def hd.2 with
    | none => exact hs
    | some p =>
      obtain ⟨o, d⟩ := p
      show ∀ f ∈ (if o = 0 ∧ d = 0 then s
          else ({ videoFiles := s.videoFiles ++ [processedName hd.1 o d],
                  tempVideos := s.tempVideos ++ [clipName hd.1 o d],
                  totalOff := o, totalDef := d } : LoopState)).videoFiles,
        f.head? = some 'p'
      by_cases hz : o = 0 ∧ d = 0
      · rw [if_pos hz]; exact hs
      · rw [if_neg hz]
        intro f hf
        replace hf : f ∈ s.videoFiles ++ [processedName hd.1 o d] := hf
        rcases List.mem_append.1 hf with hf | hf
        · exact hs f hf
        · rw [List.mem_singleton] at hf; subst hf; exact processedName_head hd.1 o d

theorem runLoop_tempVideos_head (events : List (List Char)) :
    ∀ f ∈ (runLoop events).tempVideos, f.head? = some 'c' :=
  foldl_tempVideos_head events.enum initState (by simp [initState])

theorem runLoop_videoFiles_head (events : List (List Char)) :
    ∀ f ∈ (runLoop events).videoFiles, f.head? = some 'p' :=
  foldl_videoFiles_head events.enum initState (by simp [initState])

theorem replace_clip_files_head (k : Nat) (files : List (List Char))
    (h : ∀ f ∈ files, f.head? = some 'p') :
    ∀ f ∈ (replace_clip k files).files, f.head? = some 'p' := by
  unfold replace_clip
  cases hs : reSearchODT (files.getD k []) with
  | none => exact h
  | some r =>
    obtain ⟨o, d, t⟩ := r
    intro f hf
    simp only at hf
    rcases List.mem_or_eq_of_mem_set hf with hf | hf
    · exact h f hf
    · subst hf; exact replacementOutName_head k o d

theorem sessionRun_files_head : ∀ fuel m files made script r,
    (∀ f ∈ files, f.head? = some 'p') →
    sessionRun fuel m files made script = some r →
    ∀ f ∈ r.files, f.head? = some 'p' := by
  intro fuel
  induction fuel with
  | zero => intro m files made script r _ h; simp [sessionRun] at h
  | succ fuel ih =>
    intro m files made script r hfiles h
    cases m with
    | true =>
      cases script with
      | nil => simp [sessionRun] at h
      | cons a rest =>
        simp only [sessionRun] at h
        split at h
        · obtain ⟨r0, hr0, hmap⟩ := Option.map_eq_some'.1 h
          subst hmap
          exact ih false files made rest r0 hfiles hr0
        · obtain rfl : (⟨files, made, [Prompt.askAnother], []⟩ : SessionResult) = r :=
            Option.some.inj h
          exact hfiles
    | false =>
      cases script with
      | nil => simp [sessionRun] at h
      | cons ans rest =>
        simp only [sessionRun] at h
        split at h
        · cases rest with
          | nil => simp at h
          | cons numStr rest2 =>
            simp only at h
            cases hn : pyInt (pyStrip numStr) with
            | none =>
              rw [hn] at h
              obtain ⟨r0, hr0, hmap⟩ := Option.map_eq_some'.1 h
              subst hmap
              exact ih true files made rest2 r0 hfiles hr0
            | some n =>
              rw [hn] at h
              simp only at h
              split at h
              · obtain ⟨r0, hr0, hmap⟩ := Option.map_eq_some'.1 h
                subst hmap
                exact ih false files made rest2 r0 hfiles hr0
              · cases rest2 with
                | nil => simp at h
                | cons url rest3 =>
                  simp only at h
                  obtain ⟨r0, hr0, hmap⟩ := Option.map_eq_some'.1 h
                  subst hmap
                  exact ih true (replace_clip (n - 1).toNat files).files true rest3 r0
                    (replace_clip_files_head _ files hfiles) hr0
        · obtain rfl : (⟨files, made, [Prompt.askReplace], []⟩ : SessionResult) = r :=
            Option.some.inj h
          exact hfiles

end HeadLemmas

/-- Counterexample to C9: one processed event, then a replacement of clip 1.
`replace_clip` downloads its replacement into `temp_clip_0.mp4`, a file
created during the run, but that name is never added to `temp_videos`, so the
final cleanup does not delete it (the run completes, and the created file is
missing from the deleted list). -/
theorem C9_counterexample_replacement_temp_not_deleted :
    (mainRun [strChars "Hart REBOUND (Off:1 Def:2)"]
        [strChars "yes", strChars "1", strChars "u", strChars "no"]).isSome = true ∧
    tempClipName 0 ∈
      ((mainRun [strChars "Hart REBOUND (Off:1 Def:2)"]
          [strChars "yes", strChars "1", strChars "u", strChars "no"]).map
        RunResult.created).getD [] ∧
    tempClipName 0 ∉
      ((mainRun [strChars "Hart REBOUND (Off:1 Def:2)"]
          [strChars "yes", strChars "1", strChars "u", strChars "no"]).map
        RunResult.deleted).getD [] := by
  refine ⟨by decide, by decide, by decide⟩

/-- C9 (amended): at the end of every completed run the cleanup deletes all
of the main loop's raw downloads and every file referenced by the final
compilation list — but not the replacement workflow's raw downloads: no
`temp_clip_{k}.mp4` file is ever in the deleted list (and, as the
counterexample shows, such a file can be created during the run). -/
theorem C9_cleanup_amended (events script : List (List Char)) (r : RunResult)
    (h : mainRun events script = some r) :
    (∀ f ∈ r.tempVideos, f ∈ r.deleted) ∧
    (∀ f ∈ r.finalFiles, f ∈ r.deleted) ∧
    (∀ k, tempClipName k ∉ r.deleted) := by
  unfold mainRun at h
  split at h
  · simp at h
  · rename_i hne
    cases hpr : prompt_for_replacements (runLoop events).videoFiles script with
    | none => rw [hpr] at h; simp at h
    | some sr =>
      rw [hpr] at h
      obtain rfl := Option.some.inj h
      simp only
      refine ⟨fun f hf => List.mem_append_left _ hf,
        fun f hf => List.mem_append_right _ hf, ?_⟩
      intro k hk
      rcases List.mem_append.1 hk with hk | hk
      · have := runLoop_tempVideos_head events _ hk
        rw [tempClipName_head] at this
        exact absurd (Option.some.inj this) (by decide)
      · have := sessionRun_files_head (script.length + 1) false
          (runLoop events).videoFiles false script sr
          (runLoop_videoFiles_head events) hpr _ hk
        rw [tempClipName_head] at this
        exact absurd (Option.some.inj this) (by decide)

/-- Witness for the amended C9 on a completed run with no replacements. -/
theorem C9_cleanup_amended_witness :
    tempClipName 5 ∉
      (RunResult.mk [clipName 0 1 2] [processedName 0 1 2]
        [clipName 0 1 2, processedName 0 1 2]
        [clipName 0 1 2, processedName 0 1 2] false).deleted :=
  (C9_cleanup_amended [strChars "Hart REBOUND (Off:1 Def:2)"] [strChars "no"]
    (RunResult.mk [clipName 0 1 2] [processedName 0 1 2]
      [clipName 0 1 2, processedName 0 1 2]
      [clipName 0 1 2, processedName 0 1 2] false) (by decide)).2.2 5
